import Mathlib

/-!
Verification of the irpc RPC layer (packages/irpc and packages/http).

The development shallowly embeds the core of the library:
the one-shot `IRPCCall` settlement, the micro-batching scheduler
(`batch.ts`), the module registry/dispatcher (`module.ts`:
`factory.resolve`, `module.submit`, `remoteCall`), and the reference
HTTP transport (`send` and `respond`).  Wire data is modelled by a
small inductive `Data` type; external zod validators are modelled as
functions `Data → ParseResult`; JavaScript side effects on calls are
modelled by explicit state passing over `CallState`.
-/

namespace IRPC

/-- Wire-level data values carried in requests, responses and handler
results.  A small closed universe is enough for the properties proved
here; `nil` stands for the JavaScript `undefined`/absent value. -/
inductive Data where
  | nil : Data
  | num : Int → Data
  | str : String → Data
deriving DecidableEq, Repr

/-- Result of an external validator (`safeParse` of a zod schema):
a success flag, the (transformed) data, and an optional error message.
`errorMsg = none` models an absent `error` property. -/
structure ParseResult where
  success : Bool
  data : Data
  errorMsg : Option String
deriving DecidableEq, Repr

/-- An external argument/output validator, the `safeParse` capability of
a zod schema.  Opaque to the library; modelled as a pure function. -/
def Validator : Type := Data → ParseResult

/-- Wire request object, `{ id, name, args }` (types.ts `IRPCRequest`). -/
structure IRPCRequest where
  id : String
  name : String
  args : List Data
deriving DecidableEq, Repr

/-- One parsed line of the wire response stream, `{ id, name, result?, error? }`
(types.ts `IRPCResponse`).  `error = none` models an absent `error`
property; `result` defaults to `nil` when absent. -/
structure RespLine where
  id : String
  name : String
  error : Option String
  result : Data
deriving DecidableEq, Repr

/-- Modelled from the spec: the file `call.ts` implementing class
`IRPCCall` is not present under the sources (only its unit tests and
its callers are).  Per spec §3/§4.1 a Call carries a `resolved` flag and
resolver/rejector callbacks; `resolve`/`reject` first check `resolved`
and are silently ignored when the call is already settled.  The state
records the flag together with the log of arguments each callback has
been invoked with, so that "invoked exactly once" is observable. -/
structure CallState where
  resolved : Bool
  resolverLog : List Data
  rejectorLog : List String
deriving DecidableEq, Repr

/-- A freshly constructed call: not settled, no callback invocations. -/
def CallState.init : CallState := ⟨false, [], []⟩

/-- Modelled from the spec (call.ts is missing): `resolve(value)` checks
`resolved`; when already settled it is a silent no-op, otherwise it
marks the call settled and invokes the resolver callback with `value`. -/
def CallState.resolve (s : CallState) (v : Data) : CallState :=
  if s.resolved then s
  else ⟨true, s.resolverLog ++ [v], s.rejectorLog⟩

/-- Modelled from the spec (call.ts is missing): `reject(reason)` checks
`resolved`; when already settled it is a silent no-op, otherwise it
marks the call settled and invokes the rejector callback with `reason`
(reasons are identified with their error messages). -/
def CallState.reject (s : CallState) (e : String) : CallState :=
  if s.resolved then s
  else ⟨true, s.resolverLog, s.rejectorLog ++ [e]⟩

/-- One external settlement attempt on a call. -/
inductive CallOp where
  | res : Data → CallOp
  | rej : String → CallOp
deriving DecidableEq, Repr

/-- Apply one settlement attempt to a call. -/
def applyOp (op : CallOp) (s : CallState) : CallState :=
  match op with
  | .res v => s.resolve v
  | .rej e => s.reject e

/-- Apply a sequence of settlement attempts, first to last. -/
def applyOps (ops : List CallOp) (s : CallState) : CallState :=
  ops.foldl (fun s op => applyOp op s) s

/-! State of the micro-batching scheduler (batch.ts).  Calls and
handlers are identified by natural numbers.  The state carries the
shared `IRPC_QUEUE` (a JavaScript `Set`, iterated in insertion order),
the handler captured by the currently scheduled `setTimeout` flush (if
any), the number of `setTimeout` invocations made so far, and the log
of flush invocations `(handler, calls)`. -/
structure SchedState where
  queue : List Nat
  pending : Option Nat
  timersStarted : Nat
  flushes : List (Nat × List Nat)
deriving DecidableEq, Repr

/-- The scheduler before any call arrives: empty queue, no timer. -/
def SchedState.init : SchedState := ⟨[], none, 0, []⟩

/-- JavaScript `Set.add`: append the element unless already present
(`Set` iteration order is insertion order). -/
def setAdd (q : List Nat) (c : Nat) : List Nat :=
  if c ∈ q then q else q ++ [c]

/-- Embeds `batch(call, handler, delay)` from batch.ts: when the shared
queue is empty a one-shot flush of `handler` is scheduled (one more
`setTimeout`), and in every case the call is added to the queue. -/
def SchedState.register (s : SchedState) (c : Nat) (h : Nat) : SchedState :=
  if s.queue.isEmpty then
    ⟨setAdd s.queue c, some h, s.timersStarted + 1, s.flushes⟩
  else
    ⟨setAdd s.queue c, s.pending, s.timersStarted, s.flushes⟩

/-- Embeds the scheduled `setTimeout` callback firing: the captured
handler is invoked with a snapshot of the queue in insertion order and
the queue is cleared.  With no timer scheduled nothing happens. -/
def SchedState.fire (s : SchedState) : SchedState :=
  match s.pending with
  | none => s
  | some h => ⟨[], none, s.timersStarted, s.flushes ++ [(h, s.queue)]⟩

/-- Register a sequence of `(call, handler)` pairs, first to last,
within one scheduling window (no flush fires in between). -/
def registerAll (ps : List (Nat × Nat)) (s : SchedState) : SchedState :=
  ps.foldl (fun s p => s.register p.1 p.2) s

/-! The module registry (module.ts).  A `Host` is the server-side
registration record stored in the name-keyed store; validators stand in
for the optional zod input/output schemas, and the handler (attached
later by `construct`) returns `Except` to model exceptions and
rejections. -/
structure IRPCHost where
  name : String
  inputSchema : Option (List Validator)
  outputSchema : Option Validator
  handler : Option (List Data → Except String Data)

/-- Embeds `store.get(name)` on the module's name-keyed host store
(the store is modelled as an association list in insertion order). -/
def findHost (store : List IRPCHost) (name : String) : Option IRPCHost :=
  store.find? (fun h => h.name = name)

/-- A JavaScript value an `IRPCFactory` method may receive at runtime:
a plain string, a request object, or `undefined`.  Needed because
transport `send` passes `result.name` (a string) where `factory.info`
expects a request object. -/
inductive JSVal where
  | str : String → JSVal
  | obj : IRPCRequest → JSVal
  | undef : JSVal

/-- JavaScript property access `v.name`: defined only on request
objects; on a string or `undefined` the property is `undefined`
(strings have no `name` property). -/
def JSVal.nameProp : JSVal → Option String
  | .obj r => some r.name
  | _ => none

/-- Embeds `factory.info = (req) => store.get(req.name)` from module.ts
at JavaScript semantics: the argument's `name` property is read and
looked up in the store; when the property is `undefined` (argument is a
string or `undefined`) the `Map` lookup misses. -/
def factoryInfo (store : List IRPCHost) (v : JSVal) : Option IRPCHost :=
  match v.nameProp with
  | some n => findHost store n
  | none => none

/-- Embeds `factory.resolve` from module.ts: look the host up by the
request's name; throw `'IRPC can not be found.'` when absent, throw
`'IRPC handler can not be found.'` when the host has no bound handler,
otherwise invoke the handler with the request's arguments. -/
def factoryResolve (store : List IRPCHost) (req : IRPCRequest) : Except String Data :=
  match findHost store req.name with
  | none => .error "IRPC can not be found."
  | some host =>
    match host.handler with
    | none => .error "IRPC handler can not be found."
    | some f => f req.args

/-! Argument and output validation helpers of the HTTP transport
(the bottom of part `index.ts` of packages/http). -/

/-- Combined validation outcome of `parseInput`: transformed data, an
overall success flag and the joined error message. -/
structure ParsedArgs where
  data : List Data
  success : Bool
  error : String

/-- Per-argument validation mirroring `schema?.[i]`: each argument is
checked by the validator at its index; arguments beyond the schema's
length (or with no schema at all) pass through unvalidated. -/
def parseEach : List Data → List (Option Validator) → List ParseResult
  | [], _ => []
  | a :: as, [] => ⟨true, a, none⟩ :: parseEach as []
  | a :: as, v? :: vs =>
    (match v? with
     | some v => v a
     | none => ⟨true, a, none⟩) :: parseEach as vs

/-- Assemble `parseInput`'s return object from the per-argument
results: the mapped data, the conjunction of success flags, and the
failing validators' messages joined with newlines. -/
def mkParsed (parsed : List ParseResult) : ParsedArgs :=
  ⟨parsed.map (fun p => p.data),
   parsed.all (fun p => p.success),
   String.intercalate "\n" ((parsed.filter (fun p => !p.success)).map (fun p => p.errorMsg.getD ""))⟩

/-- Embeds `parseInput(args, schema?)` of the HTTP transport: with a
schema whose length disagrees with the argument count the result is an
immediate `'Invalid arguments.'` failure, otherwise each argument is
validated at its index. -/
def parseInput (args : List Data) (schema : Option (List Validator)) : ParsedArgs :=
  match schema with
  | some sch =>
    if args.length ≠ sch.length then ⟨[], false, "Invalid arguments."⟩
    else mkParsed (parseEach args (sch.map some))
  | none => mkParsed (parseEach args [])

/-- Embeds `parseOutput(result, schema?)`: validate through the output
schema when present, otherwise pass the result through successfully. -/
def parseOutput (result : Data) (schema : Option Validator) : ParseResult :=
  match schema with
  | some v => v result
  | none => ⟨true, result, none⟩

/-! Client egress: `IRPCHttpTransport.send` of packages/http. -/

/-- A call as the transport sees it: identifier, payload name and
arguments (`call.payload`), and the settlement state. -/
structure TCall where
  id : String
  name : String
  args : List Data
  st : CallState
deriving DecidableEq, Repr

/-- One element of the outgoing batch, `{ id, name, args }` with the
validated (transformed) arguments. -/
structure WireRequest where
  id : String
  name : String
  args : List Data
deriving DecidableEq, Repr

/-- Result of `send`'s request-building map over the input calls:
the per-call entries (`none` for a call dropped by validation), the
updated calls, and whether a `TypeError` escaped because
`factory.get` returned `undefined` for some call's name (aborting the
map; later calls are left untouched). -/
structure Phase1Out where
  requests : List (Option WireRequest)
  calls : List TCall
  threw : Bool

/-- Embeds the `calls.map(...)` phase of `send`: look each call's spec
up via `factory.get(call.payload.name)` (an `undefined` spec makes the
`spec.schema?.input` access throw), validate the arguments with
`parseInput`, reject the call and map it to `undefined` on failure,
and otherwise build its wire request. -/
def buildRequests (store : List IRPCHost) : List TCall → Phase1Out
  | [] => ⟨[], [], false⟩
  | c :: cs =>
    match findHost store c.name with
    | none => ⟨[], c :: cs, true⟩
    | some spec =>
      let parsed := parseInput c.args spec.inputSchema
      let rest := buildRequests store cs
      if parsed.success then
        ⟨some ⟨c.id, c.name, parsed.data⟩ :: rest.requests, c :: rest.calls, rest.threw⟩
      else
        ⟨none :: rest.requests, ⟨c.id, c.name, c.args, c.st.reject parsed.error⟩ :: rest.calls,
         rest.threw⟩

/-- JavaScript truthiness of the optional `error` field of a response
line: absent and empty-string values are falsy. -/
def strTruthy : Option String → Bool
  | some s => s ≠ ""
  | none => false

/-- Settle the first call carrying the given id (`calls.find(...)`
followed by a mutation of that call), leaving every other call as is. -/
def settleFirst : List TCall → String → (CallState → CallState) → List TCall
  | [], _, _ => []
  | c :: cs, id, f =>
    if c.id = id then ⟨c.id, c.name, c.args, f c.st⟩ :: cs
    else c :: settleFirst cs id f

/-- Embeds the body of `send`'s per-line loop for one decoded response
line: find the original call by id; on a truthy `error` field reject
it; otherwise look the spec up via `this.factory.info(result.name)` —
which passes a *string* to `factory.info`, so the lookup reads the
string's `name` property (`undefined`) and misses, and the subsequent
`spec.schema` access throws a `TypeError` that the per-line catch
swallows, settling nothing.  The unreachable `some`-spec branch is kept
faithful to the source text: output validation then resolve/reject. -/
def processLine (store : List IRPCHost) (calls : List TCall) (line : RespLine) : List TCall :=
  if (calls.find? (fun c => c.id = line.id)).isSome then
    if strTruthy line.error then
      settleFirst calls line.id (fun st => st.reject (line.error.getD ""))
    else
      match factoryInfo store (.str line.name) with
      | none => calls
      | some spec =>
        let output := parseOutput line.result spec.outputSchema
        if output.success then settleFirst calls line.id (fun st => st.resolve output.data)
        else settleFirst calls line.id (fun st => st.reject (output.errorMsg.getD ""))
  else calls

/-- Embeds `send`'s stream-consumption loop over the decoded lines of
the response body: undecodable lines (`none`) are skipped, decodable
lines are appended to `results` and then processed. -/
def readLines (store : List IRPCHost) :
    List (Option RespLine) → List TCall → List RespLine → List TCall × List RespLine
  | [], calls, results => (calls, results)
  | none :: rest, calls, results => readLines store rest calls results
  | some line :: rest, calls, results =>
    readLines store rest (processLine store calls line) (results ++ [line])

/-- The transport-level outcome of the single `fetch` of `send`:
a non-success status (with optional `statusText`), a success with an
unreadable body, or a success whose body decodes into a list of lines
(`none` entries model lines that fail `JSON.parse`). -/
inductive FetchOutcome where
  | notOk : Option String → FetchOutcome
  | okNoBody : FetchOutcome
  | ok : List (Option RespLine) → FetchOutcome

/-- What `send` produces when it returns normally: the updated calls,
the outgoing transportable batch (`[]` when none was issued), the
returned `results` array, and whether the network request was issued. -/
structure SendResult where
  calls : List TCall
  sent : List WireRequest
  results : List RespLine
  fetched : Bool
deriving DecidableEq, Repr

/-- A `send` invocation either throws synchronously (a `TypeError` from
an unknown spec) leaving the calls in the given states, or returns. -/
inductive SendOutcome where
  | threw : List TCall → SendOutcome
  | returned : SendResult → SendOutcome
deriving DecidableEq, Repr

/-- Embeds `IRPCHttpTransport.send(calls)` end to end, with the fetch
outcome supplied as a parameter: build and validate the requests; with
no transportable request return `[]` without fetching; on a non-ok
response reject every call with `statusText ?? 'Request failed.'`; on
an unreadable body reject every call with
`'Response body is not readable'`; otherwise consume the line stream. -/
def httpSend (store : List IRPCHost) (calls : List TCall) (fetch : FetchOutcome) : SendOutcome :=
  let p := buildRequests store calls
  if p.threw then .threw p.calls
  else
    let transportable := p.requests.filterMap id
    if transportable.isEmpty then .returned ⟨p.calls, [], [], false⟩
    else
      match fetch with
      | .notOk statusText =>
        .returned
          ⟨p.calls.map (fun c => ⟨c.id, c.name, c.args, c.st.reject (statusText.getD "Request failed.")⟩),
           transportable, [], true⟩
      | .okNoBody =>
        .returned
          ⟨p.calls.map (fun c => ⟨c.id, c.name, c.args, c.st.reject "Response body is not readable"⟩),
           transportable, [], true⟩
      | .ok lines =>
        let out := readLines store lines p.calls []
        .returned ⟨out.1, transportable, out.2, true⟩

/-! Dispatch: `module.submit` and `remoteCall` of module.ts. -/

/-- How `transport.send(calls)` behaves from `submit`'s point of view:
it throws synchronously, returns a promise that later rejects, or
returns a promise that resolves (settlement of individual calls then
being `send`'s own doing, modelled by `httpSend`). -/
inductive SendBehavior where
  | throws : String → SendBehavior
  | promiseRejects : String → SendBehavior
  | promiseResolves : SendBehavior

/-- Embeds `module.submit(calls)`: `transport.send` is invoked inside
`try`; a synchronous throw is caught and rejects every call with the
thrown error, and a rejected promise's `.catch` rejects every call with
the rejection reason. -/
def submit (b : SendBehavior) (calls : List TCall) : List TCall :=
  match b with
  | .throws e => calls.map (fun c => ⟨c.id, c.name, c.args, c.st.reject e⟩)
  | .promiseRejects e => calls.map (fun c => ⟨c.id, c.name, c.args, c.st.reject e⟩)
  | .promiseResolves => calls

/-! The timeout race of `remoteCall` (module.ts), as a state machine
over the call's settlement flag, the outer promise, and the timer. -/

/-- Settlements are compared for equality in the race theorems below. -/
instance instDecEqExcept : DecidableEq (Except String Data) := fun a b =>
  match a, b with
  | .ok x, .ok y =>
    if h : x = y then .isTrue (by rw [h]) else .isFalse (by simp [h])
  | .ok _, .error _ => .isFalse (by simp)
  | .error _, .ok _ => .isFalse (by simp)
  | .error x, .error y =>
    if h : x = y then .isTrue (by rw [h]) else .isFalse (by simp [h])

/-- State of one remote call: whether its `IRPCCall` has settled, the
settlement of the promise `remoteCall` returned (`none` while pending),
and whether the timeout timer is armed (scheduled, not yet fired and
not yet cleared). -/
structure RemoteState where
  resolved : Bool
  promise : Option (Except String Data)
  timerArmed : Bool
deriving DecidableEq, Repr

/-- Embeds the body of `remoteCall`'s promise executor: with no
transport the promise is rejected immediately and no timer or call is
created; otherwise the call starts unsettled and the timer is armed
exactly when `module.timeout` is truthy (nonzero). -/
def remoteInit (hasTransport : Bool) (timeout : Nat) : RemoteState :=
  if hasTransport then ⟨false, none, decide (timeout ≠ 0)⟩
  else ⟨false, some (.error "IRPC transport can not be found."), false⟩

/-- An event that can reach a pending remote call: the armed timer
fires, or the transport path settles the call with a value or error. -/
inductive RemoteEvent where
  | timerFires : RemoteEvent
  | transportResolve : Data → RemoteEvent
  | transportReject : String → RemoteEvent

/-- Embeds the reaction of `remoteCall`'s wiring to one event.  A
firing timer calls `call.reject(new Error('IRPC timeout.'))`; the
transport paths call `call.resolve`/`call.reject`.  Settlement is
guarded by the call's one-shot flag, and the resolver/rejector
callbacks settle the outer promise and clear the timer. -/
def remoteStep (e : RemoteEvent) (s : RemoteState) : RemoteState :=
  match e with
  | .timerFires =>
    if !s.timerArmed then s
    else if s.resolved then ⟨s.resolved, s.promise, false⟩
    else ⟨true, some (.error "IRPC timeout."), false⟩
  | .transportResolve v =>
    if s.resolved then s else ⟨true, some (.ok v), false⟩
  | .transportReject e =>
    if s.resolved then s else ⟨true, some (.error e), false⟩

/-! Server ingress: `IRPCHttpTransport.respond` of packages/http. -/

/-- The value `respond` returns: either a plain `Response` constructed
from a status and an optional body string, or a `Response` wrapping a
freshly allocated `ReadableStream`. -/
inductive RespondResult where
  | plain : Nat → Option String → RespondResult
  | streaming : Nat → String → RespondResult
deriving DecidableEq, Repr

/-- Embeds the entry of `respond`: the decoded JSON body (`none` models
a JSON `null` body, defaulted by `?? []`) is wrapped in a `Set` whose
size is the number of decoded objects (each decoded element has a fresh
identity); an empty set yields
`new Response(JSON.stringify([]), { status: 204 })`, and a non-empty
one a 200 response around a new `ReadableStream` with the
`application/json` content type. -/
def respondEntry (decoded : Option (List IRPCRequest)) : RespondResult :=
  let requests := decoded.getD []
  if requests.length = 0 then .plain 204 (some "[]")
  else .streaming 200 "application/json"

/-- Whether a `Response` constructor invocation was handed a body. -/
def carriesBody : RespondResult → Bool
  | .plain _ b => b.isSome
  | .streaming _ _ => true

/-- Whether `respond` allocated a `ReadableStream` for its response. -/
def allocatesStream : RespondResult → Bool
  | .plain _ _ => false
  | .streaming _ _ => true

/-- Outcome of the promise returned by `factory.resolve(req)` for one
request: a result value, or a rejection whose optional message models
`error?.message` (absent for exotic rejection values). -/
inductive ResolveOutcome where
  | ok : Data → ResolveOutcome
  | err : Option String → ResolveOutcome

/-- The `args.length !== spec.schema?.input?.length` guard of
`respond`, under the truthiness of `spec.schema?.input` (any array,
even empty, is truthy). -/
def inputLenMismatch (schema : Option (List Validator)) (args : List Data) : Bool :=
  match schema with
  | some inp => args.length != inp.length
  | none => false

/-- How one request fares in the synchronous part of `respond`'s
per-request cascade: a sync branch enqueues an error line immediately;
a request that reaches `this.factory.resolve(req).then(...).catch(...)`
with a bound handler defers its settlement to the returned promise; and
a request whose host exists but has no bound handler makes
`factory.resolve` throw `'IRPC handler can not be found.'`
*synchronously*, before `.then`/`.catch` can attach. -/
inductive ReqPath where
  | line : RespLine → ReqPath
  | deferred : IRPCHost → ReqPath
  | throws : ReqPath

/-- Whether the request takes the synchronous-throw path. -/
def ReqPath.isThrowing : ReqPath → Bool
  | .throws => true
  | _ => false

/-- Whether the request defers to its handler's promise. -/
def ReqPath.isDeferring : ReqPath → Bool
  | .deferred _ => true
  | _ => false

/-- Embeds the per-request branch cascade inside `respond`'s stream
`start` callback up to the `factory.resolve` invocation: unknown spec,
argument-count mismatch and input-validation failure each produce a
synchronous error line; otherwise `factory.resolve(req)` runs — it
looks the host up again (the same lookup that just succeeded) and
throws synchronously when no handler is bound (part_004:142-144),
else it invokes the handler, whose promise settles later. -/
def classifyReq (store : List IRPCHost) (req : IRPCRequest) : ReqPath :=
  match factoryInfo store (.obj req) with
  | none => .line ⟨req.id, req.name, some "IRPC can not be found.", .nil⟩
  | some spec =>
    if inputLenMismatch spec.inputSchema req.args then
      .line ⟨req.id, req.name, some "Invalid arguments.", .nil⟩
    else
      let args := parseInput req.args spec.inputSchema
      if !args.success then .line ⟨req.id, req.name, some args.error, .nil⟩
      else
        match spec.handler with
        | none => .throws
        | some _ => .deferred spec

/-- The cascade outcome of the batch's request at index `i` (indices
address the decoded `Set` in insertion order). -/
def clsAt (store : List IRPCHost) (reqs : List IRPCRequest) (i : Nat) : ReqPath :=
  classifyReq store (reqs.getD i ⟨"", "", []⟩)

/-- Embeds the `.then`/`.catch` continuations attached to
`factory.resolve(req)`'s promise: a fulfilled result runs through the
output validator and yields a result or error line; a rejection yields
an error line whose message defaults to `'Unknown error.'`. -/
def settledLine (spec : IRPCHost) (outcome : ResolveOutcome) (req : IRPCRequest) : RespLine :=
  match outcome with
  | .ok result =>
    let output := parseOutput result spec.outputSchema
    if output.success then ⟨req.id, req.name, none, output.data⟩
    else ⟨req.id, req.name, output.errorMsg, .nil⟩
  | .err msg => ⟨req.id, req.name, some (msg.getD "Unknown error."), .nil⟩

/-- The single response line request `i` contributes when it does not
take the throw path: its synchronous error line, or its settled
deferred line.  A request on the throw path contributes no line at all
(the stream errors instead, see `syncStep`); that branch of this total
function is never consulted by the theorems, whose hypotheses exclude
it, and the counterexample documents the program's real behaviour
there. -/
def reqLine (store : List IRPCHost) (reqs : List IRPCRequest) (outcomes : Nat → ResolveOutcome)
    (i : Nat) : RespLine :=
  match clsAt store reqs i with
  | .line l => l
  | .deferred spec => settledLine spec (outcomes i) (reqs.getD i ⟨"", "", []⟩)
  | .throws => ⟨"", "", none, .nil⟩

/-- State of the response stream of one `respond` invocation: the
indices of the decoded requests still in the pending `Set`, the
enqueued response lines in enqueue order, whether `controller.close()`
has run, whether the stream has errored (the async `start` callback
rejected on an uncaught synchronous throw), and the indices whose
`factory.resolve` promise is outstanding with callbacks attached. -/
structure RespondState where
  pending : List Nat
  enqueued : List RespLine
  closed : Bool
  errored : Bool
  deferred : List Nat
deriving DecidableEq, Repr

/-- The stream right after `respond` decoded `n` requests: all of them
pending, nothing enqueued, the stream open and healthy. -/
def respondInit (n : Nat) : RespondState := ⟨List.range n, [], false, false, []⟩

/-- Embeds one iteration of the synchronous `requests.forEach` inside
`respond`'s stream `start` callback.  Once a synchronous throw has
escaped, the `forEach` has aborted and later requests are never
processed.  A sync-branch request enqueues its line and finalizes
(erased from the pending set; `controller.close()` when the set
empties); a deferring request only attaches its promise callbacks; a
handler-less request's synchronous throw escapes `withContext` (which
runs its callback directly) and the `forEach`, rejecting the async
`start` callback and erroring the stream. -/
def syncStep (store : List IRPCHost) (reqs : List IRPCRequest) (i : Nat)
    (s : RespondState) : RespondState :=
  if s.errored then s
  else
    match clsAt store reqs i with
    | .line l =>
      let pending := s.pending.erase i
      ⟨pending, s.enqueued ++ [l], s.closed || pending.isEmpty, false, s.deferred⟩
    | .deferred _ => ⟨s.pending, s.enqueued, s.closed, false, s.deferred ++ [i]⟩
    | .throws => ⟨s.pending, s.enqueued, s.closed, true, s.deferred⟩

/-- The synchronous phase of `respond`'s stream `start` callback: the
decoded requests are processed in `Set` insertion order (their index
order); promise callbacks cannot run until this phase finishes. -/
def runSync (store : List IRPCHost) (reqs : List IRPCRequest) : RespondState :=
  (List.range reqs.length).foldl (fun s i => syncStep store reqs i s) (respondInit reqs.length)

/-- Embeds the later firing of request `i`'s `.then`/`.catch`
continuation: its settled line is enqueued and `finalize` runs — the
request is erased from the pending set and `controller.close()` closes
the stream when the set empties.  Only a deferring request has such a
continuation, and one that already completed does nothing. -/
def asyncStep (store : List IRPCHost) (reqs : List IRPCRequest)
    (outcomes : Nat → ResolveOutcome) (i : Nat) (s : RespondState) : RespondState :=
  match clsAt store reqs i with
  | .deferred spec =>
    if i ∈ s.pending then
      let pending := s.pending.erase i
      ⟨pending, s.enqueued ++ [settledLine spec (outcomes i) (reqs.getD i ⟨"", "", []⟩)],
       s.closed || pending.isEmpty, s.errored, s.deferred.erase i⟩
    else s
  | _ => s

/-- Run the deferred requests' completions in the given order (their
staggered asynchronous finishing order, an arbitrary interleaving). -/
def runAsync (store : List IRPCHost) (reqs : List IRPCRequest)
    (outcomes : Nat → ResolveOutcome) (order : List Nat) (s : RespondState) : RespondState :=
  order.foldl (fun s i => asyncStep store reqs outcomes i s) s

/-- The whole lifecycle of `respond`'s stream for one decoded batch:
the synchronous cascade over every request, then the deferred
completions in an arbitrary order. -/
def respondRun (store : List IRPCHost) (reqs : List IRPCRequest)
    (outcomes : Nat → ResolveOutcome) (order : List Nat) : RespondState :=
  runAsync store reqs outcomes order (runSync store reqs)

/-- The indices among `is` whose requests defer to their handler's
promise (in `respond`, exactly the ones that stay pending after the
synchronous phase). -/
def deferIdxs (store : List IRPCHost) (reqs : List IRPCRequest) (is : List Nat) : List Nat :=
  is.filter (fun i => (clsAt store reqs i).isDeferring)

/-- The error lines the synchronous phase of `respond` enqueues for the
non-deferring requests among `is`, in arrival order. -/
def syncLines (store : List IRPCHost) (reqs : List IRPCRequest)
    (outcomes : Nat → ResolveOutcome) (is : List Nat) : List RespLine :=
  (is.filter (fun i => !(clsAt store reqs i).isDeferring)).map (reqLine store reqs outcomes)

/-! Concrete fixtures used by the witnesses and counterexamples. -/

/-- Handler bound to the `multiply` spec of the spec's concrete
scenario: integer multiplication of its two arguments. -/
def mulHandler : List Data → Except String Data
  | [.num a, .num b] => .ok (.num (a * b))
  | _ => .error "Invalid arguments."

/-- A validator accepting exactly numbers, failing anything else with
the message `'Expected number'`. -/
def numValidator : Validator := fun d =>
  match d with
  | .num n => ⟨true, .num n, none⟩
  | _ => ⟨false, d, some "Expected number"⟩

/-- A store registering just `multiply` (no schemas, handler bound). -/
def demoStore : List IRPCHost :=
  [⟨"multiply", none, none, some mulHandler⟩]

/-- A store registering `multiply` with two numeric input validators
and no output schema. -/
def sendStore : List IRPCHost :=
  [⟨"multiply", some [numValidator, numValidator], none, some mulHandler⟩]

/-- A call with valid arguments, `multiply(3, 4)`. -/
def callA : TCall := ⟨"a1", "multiply", [.num 3, .num 4], CallState.init⟩

/-- A call whose first argument fails the numeric validator. -/
def callB : TCall := ⟨"b1", "multiply", [.str "x", .num 4], CallState.init⟩

/-- The well-formed success line the server would stream for `callA`. -/
def lineA : RespLine := ⟨"a1", "multiply", none, .num 12⟩

/-- Three concrete inbound requests with staggered completion times. -/
def demoReqs : List IRPCRequest :=
  [⟨"1", "multiply", [.num 2, .num 3]⟩, ⟨"2", "nope", []⟩, ⟨"3", "multiply", [.num 1, .num 1]⟩]

/-- Concrete resolution outcomes for `demoReqs`: the two `multiply`
requests succeed, the unknown one is irrelevant (it fails lookup). -/
def demoOutcomes : Nat → ResolveOutcome := fun i =>
  if i = 0 then .ok (.num 6) else if i = 2 then .ok (.num 1) else .err none

/-- A store holding a host exactly as `define` leaves it before
`construct` runs: registered under its name, no handler bound. -/
def noHandlerStore : List IRPCHost := [⟨"pending", none, none, none⟩]

/-- A single decoded request targeting the handler-less host. -/
def noHandlerReqs : List IRPCRequest := [⟨"1", "pending", []⟩]

/-! Helper lemmas shared by the claim theorems. -/

/-- A settled call absorbs any further settlement attempt. -/
theorem applyOp_settled (op : CallOp) (s : CallState) (h : s.resolved = true) :
    applyOp op s = s := by
  cases op <;> simp [applyOp, CallState.resolve, CallState.reject, h]

/-- A settled call absorbs any sequence of settlement attempts. -/
theorem applyOps_settled (ops : List CallOp) (s : CallState) (h : s.resolved = true) :
    applyOps ops s = s := by
  induction ops with
  | nil => rfl
  | cons op ops ih =>
    show applyOps ops (applyOp op s) = s
    rw [applyOp_settled op s h, ih]

/-! Claim theorems. -/

/-- C2: for every Call, the first invocation of resolve or reject invokes
the corresponding callback exactly once and marks the Call settled, and
every later sequence of resolve/reject invocations is a silent no-op that
neither re-invokes a callback nor changes the observed result. -/
theorem call_settles_exactly_once (first : CallOp) (rest : List CallOp) :
    (applyOp first CallState.init).resolved = true
    ∧ (∀ v : Data, applyOp (.res v) CallState.init = ⟨true, [v], []⟩)
    ∧ (∀ e : String, applyOp (.rej e) CallState.init = ⟨true, [], [e]⟩)
    ∧ applyOps rest (applyOp first CallState.init) = applyOp first CallState.init := by
  have hres : (applyOp first CallState.init).resolved = true := by
    cases first <;> simp [applyOp, CallState.resolve, CallState.reject, CallState.init]
  refine ⟨hres, ?_, ?_, applyOps_settled rest _ hres⟩
  · intro v; simp [applyOp, CallState.resolve, CallState.init]
  · intro e; simp [applyOp, CallState.reject, CallState.init]

/-- C1 counterexample: `respond` on a body decoding to the empty Request
array returns a response constructed *with* a body (the JSON text of an
empty array), contradicting "carries no body". -/
theorem respond_empty_batch_carries_body :
    carriesBody (respondEntry (some [])) = true
    ∧ respondEntry (some []) = .plain 204 (some "[]") := by
  exact ⟨rfl, rfl⟩

/-- C1 (amended): for every inbound body decoding to an empty Request
array, `respond` returns a status-204 response whose body is the JSON
text of an empty array, and never allocates a response stream. -/
theorem respond_empty_batch_no_stream (decoded : Option (List IRPCRequest))
    (h : (decoded.getD []).length = 0) :
    respondEntry decoded = .plain 204 (some "[]")
    ∧ allocatesStream (respondEntry decoded) = false := by
  constructor
  · simp [respondEntry, h]
  · simp [respondEntry, h, allocatesStream]

/-- Witness for C1: the concrete empty decoded batch. -/
theorem respond_empty_batch_no_stream_witness :
    respondEntry (some []) = .plain 204 (some "[]")
    ∧ allocatesStream (respondEntry (some [])) = false :=
  respond_empty_batch_no_stream (some []) rfl

/-- C5: `factory.resolve` fails with the NotFound error when no Host is
registered under the request's name, with the NoHandler error when the
Host has no bound handler, and otherwise returns the bound handler
applied to the request's arguments; concretely, with `multiply` bound to
integer multiplication, resolving `multiply(3, 4)` yields 12 and
resolving unknown `nope` fails with NotFound. -/
theorem factory_resolve_cases (store : List IRPCHost) (req : IRPCRequest) :
    (findHost store req.name = none →
      factoryResolve store req = .error "IRPC can not be found.")
    ∧ (∀ host : IRPCHost, findHost store req.name = some host → host.handler = none →
        factoryResolve store req = .error "IRPC handler can not be found.")
    ∧ (∀ (host : IRPCHost) (f : List Data → Except String Data),
        findHost store req.name = some host → host.handler = some f →
        factoryResolve store req = f req.args)
    ∧ factoryResolve demoStore ⟨"1", "multiply", [.num 3, .num 4]⟩ = .ok (.num 12)
    ∧ factoryResolve demoStore ⟨"2", "nope", []⟩ = .error "IRPC can not be found." := by
  refine ⟨?_, ?_, ?_, rfl, rfl⟩
  · intro h; simp [factoryResolve, h]
  · intro host h1 h2; simp [factoryResolve, h1, h2]
  · intro host f h1 h2; simp [factoryResolve, h1, h2]

/-- Witness for C5: the NotFound branch at the concrete store. -/
theorem factory_resolve_cases_witness :
    factoryResolve demoStore ⟨"2", "nope", []⟩ = .error "IRPC can not be found." :=
  (factory_resolve_cases demoStore ⟨"2", "nope", []⟩).1 rfl

/-- C4: when `transport.send` throws synchronously or the promise it
returns rejects, `module.submit` rejects every call of that batch with
the underlying error — batch failure is all-or-nothing at the
transport-invocation granularity. -/
theorem submit_failure_rejects_batch (b : SendBehavior) (e : String) (calls : List TCall)
    (hb : b = .throws e ∨ b = .promiseRejects e)
    (hinit : ∀ c ∈ calls, c.st = CallState.init) :
    submit b calls = calls.map (fun c => ⟨c.id, c.name, c.args, ⟨true, [], [e]⟩⟩) := by
  have hmap : ∀ c ∈ calls,
      (⟨c.id, c.name, c.args, c.st.reject e⟩ : TCall)
        = ⟨c.id, c.name, c.args, ⟨true, [], [e]⟩⟩ := by
    intro c hc
    rw [hinit c hc]
    rfl
  rcases hb with h | h <;> subst h <;> exact List.map_congr_left hmap

/-- Witness for C4: a synchronous throw rejects the whole batch. -/
theorem submit_failure_rejects_batch_witness :
    submit (.throws "boom") [callA]
      = [callA].map (fun c => ⟨c.id, c.name, c.args, ⟨true, [], ["boom"]⟩⟩) :=
  submit_failure_rejects_batch (.throws "boom") "boom" [callA] (Or.inl rfl)
    (by intro c hc; rw [List.mem_singleton] at hc; subst hc; rfl)

/-- C8: for a remote call with a transport installed, a falsy timeout
starts no timer; a truthy timeout arms a timer whose firing before any
other settlement rejects the call with the Timeout error; the timer is
cleared whenever the call settles by either path; and whichever of the
timeout path and the transport-result path settles first wins while any
later settlement is a no-op. -/
theorem remote_timeout_race (t : Nat) (ht : t ≠ 0) (v : Data) (e : String) :
    (remoteInit true 0).timerArmed = false
    ∧ remoteInit true t = ⟨false, none, true⟩
    ∧ remoteStep .timerFires (remoteInit true t)
        = ⟨true, some (.error "IRPC timeout."), false⟩
    ∧ remoteStep (.transportResolve v) (remoteStep .timerFires (remoteInit true t))
        = remoteStep .timerFires (remoteInit true t)
    ∧ remoteStep (.transportReject e) (remoteStep .timerFires (remoteInit true t))
        = remoteStep .timerFires (remoteInit true t)
    ∧ remoteStep (.transportResolve v) (remoteInit true t) = ⟨true, some (.ok v), false⟩
    ∧ remoteStep .timerFires (remoteStep (.transportResolve v) (remoteInit true t))
        = remoteStep (.transportResolve v) (remoteInit true t)
    ∧ remoteStep (.transportReject e) (remoteInit true t) = ⟨true, some (.error e), false⟩
    ∧ remoteStep .timerFires (remoteStep (.transportReject e) (remoteInit true t))
        = remoteStep (.transportReject e) (remoteInit true t)
    ∧ ∀ (s : RemoteState) (ev : RemoteEvent), s.resolved = true → s.timerArmed = false →
        remoteStep ev s = s := by
  refine ⟨rfl, by simp [remoteInit, ht], ?_, ?_, ?_, ?_, ?_, ?_, ?_, ?_⟩
  all_goals try simp [remoteInit, remoteStep, ht]
  intro s ev h1 h2
  cases ev <;> simp [remoteStep, h1, h2]

/-- Witness for C8: the concrete race at timeout 5. -/
theorem remote_timeout_race_witness :
    remoteStep .timerFires (remoteInit true 5)
      = ⟨true, some (.error "IRPC timeout."), false⟩ :=
  (remote_timeout_race 5 (by decide) (.num 1) "late").2.2.1

/-- C10: a second `batch` call within one flush cycle carrying a
different handler schedules no new flush; the cycle's first handler
receives all queued calls (including the one registered under the other
handler) and the second handler is never invoked during that cycle. -/
theorem batch_second_handler_ignored (c1 c2 h1 h2 : Nat) (hc : c1 ≠ c2) (hh : h1 ≠ h2) :
    (SchedState.init.register c1 h1).register c2 h2 = ⟨[c1, c2], some h1, 1, []⟩
    ∧ ((SchedState.init.register c1 h1).register c2 h2).fire
        = ⟨[], none, 1, [(h1, [c1, c2])]⟩
    ∧ ∀ p ∈ ((SchedState.init.register c1 h1).register c2 h2).fire.flushes, p.1 ≠ h2 := by
  have h0 : SchedState.init.register c1 h1 = ⟨[c1], some h1, 1, []⟩ := by
    simp [SchedState.register, SchedState.init, setAdd]
  have h1' : (SchedState.init.register c1 h1).register c2 h2 = ⟨[c1, c2], some h1, 1, []⟩ := by
    rw [h0]
    simp [SchedState.register, setAdd, List.isEmpty, Ne.symm hc]
  refine ⟨h1', ?_, ?_⟩
  · rw [h1']; rfl
  · rw [h1']
    intro p hp
    simp [SchedState.fire] at hp
    subst hp
    exact hh

/-- Witness for C10: concrete calls 0, 1 and handlers 2, 3. -/
theorem batch_second_handler_ignored_witness :
    (SchedState.init.register 0 2).register 1 3 = ⟨[0, 1], some 2, 1, []⟩
    ∧ ((SchedState.init.register 0 2).register 1 3).fire = ⟨[], none, 1, [(2, [0, 1])]⟩ :=
  ⟨(batch_second_handler_ignored 0 1 2 3 (by decide) (by decide)).1,
   (batch_second_handler_ignored 0 1 2 3 (by decide) (by decide)).2.1⟩

/-- Registering unfolds one step at a time. -/
theorem registerAll_cons (p : Nat × Nat) (ps : List (Nat × Nat)) (s : SchedState) :
    registerAll (p :: ps) s = registerAll ps (s.register p.1 p.2) := rfl

/-- With a non-empty queue, `batch` schedules nothing new and only adds
the call. -/
theorem register_nonempty (s : SchedState) (c h : Nat) (hq : s.queue ≠ []) :
    s.register c h = ⟨setAdd s.queue c, s.pending, s.timersStarted, s.flushes⟩ := by
  have he : s.queue.isEmpty = false := by simp [hq]
  simp [SchedState.register, he]

/-- Registering fresh, pairwise-distinct calls onto a non-empty queue
appends exactly their identifiers and changes nothing else. -/
theorem registerAll_nonempty (ps : List (Nat × Nat)) (s : SchedState)
    (hq : s.queue ≠ [])
    (hfresh : ∀ p ∈ ps, p.1 ∉ s.queue)
    (hnd : (ps.map Prod.fst).Nodup) :
    registerAll ps s = ⟨s.queue ++ ps.map Prod.fst, s.pending, s.timersStarted, s.flushes⟩ := by
  induction ps generalizing s with
  | nil => simp [registerAll]
  | cons p ps ih =>
    rw [List.map_cons] at hnd
    have hp : p.1 ∉ s.queue := hfresh p (List.mem_cons_self p ps)
    have hstep : s.register p.1 p.2 = ⟨s.queue ++ [p.1], s.pending, s.timersStarted, s.flushes⟩ := by
      rw [register_nonempty s p.1 p.2 hq]
      simp [setAdd, hp]
    rw [registerAll_cons, hstep, ih]
    · simp
    · simp
    · intro q hq'
      have h1 : q.1 ∉ s.queue := hfresh q (List.mem_cons_of_mem p hq')
      have h2 : q.1 ≠ p.1 := by
        intro heq
        apply (List.nodup_cons.mp hnd).1
        exact heq ▸ List.mem_map_of_mem Prod.fst hq'
      simp [h1, h2]
    · exact (List.nodup_cons.mp hnd).2

/-- One full scheduling cycle from the empty scheduler: the first call
schedules the flush and every call lands in the queue in order. -/
theorem registerAll_from_init (c0 h0 : Nat) (rest : List (Nat × Nat))
    (hnd : (c0 :: rest.map Prod.fst).Nodup) :
    registerAll ((c0, h0) :: rest) SchedState.init
      = ⟨c0 :: rest.map Prod.fst, some h0, 1, []⟩ := by
  have hfirst : SchedState.init.register c0 h0 = ⟨[c0], some h0, 1, []⟩ := by
    simp [SchedState.register, SchedState.init, setAdd]
  rw [registerAll_cons, hfirst, registerAll_nonempty]
  · simp
  · simp
  · intro p hp
    simp only [List.mem_singleton]
    intro heq
    apply (List.nodup_cons.mp hnd).1
    exact heq ▸ List.mem_map_of_mem Prod.fst hp
  · exact (List.nodup_cons.mp hnd).2

/-- C3: within one cycle, the first call arriving at an empty queue
schedules exactly one deferred flush, every call is queued immediately
in insertion order, the fired flush invokes the captured handler exactly
once with the full accumulated set and clears the queue, and a call
issued after the flush starts a new cycle with a fresh timer. -/
theorem batch_coalesces_one_cycle (c0 h0 : Nat) (rest : List (Nat × Nat))
    (hnd : (c0 :: rest.map Prod.fst).Nodup) :
    registerAll ((c0, h0) :: rest) SchedState.init
      = ⟨c0 :: rest.map Prod.fst, some h0, 1, []⟩
    ∧ (registerAll ((c0, h0) :: rest) SchedState.init).fire
        = ⟨[], none, 1, [(h0, c0 :: rest.map Prod.fst)]⟩
    ∧ (∀ k : Nat, (registerAll (((c0, h0) :: rest).take k) SchedState.init).queue
        = (((c0, h0) :: rest).map Prod.fst).take k)
    ∧ ∀ c h : Nat, (registerAll ((c0, h0) :: rest) SchedState.init).fire.register c h
        = ⟨[c], some h, 2, [(h0, c0 :: rest.map Prod.fst)]⟩ := by
  have hmain := registerAll_from_init c0 h0 rest hnd
  refine ⟨hmain, by rw [hmain]; rfl, ?_, ?_⟩
  · intro k
    cases k with
    | zero => rfl
    | succ j =>
      have hnd' : (c0 :: (rest.take j).map Prod.fst).Nodup := by
        rw [List.map_take]
        exact hnd.sublist (List.Sublist.cons₂ c0 (List.take_sublist j (rest.map Prod.fst)))
      have htake : ((c0, h0) :: rest).take (j + 1) = (c0, h0) :: rest.take j := rfl
      rw [htake, registerAll_from_init c0 h0 (rest.take j) hnd']
      simp [List.map_take]
  · intro c h
    rw [hmain]
    simp [SchedState.fire, SchedState.register, setAdd]

/-- Witness for C3: three concrete calls registered in one cycle. -/
theorem batch_coalesces_one_cycle_witness :
    registerAll [(0, 10), (1, 11), (2, 12)] SchedState.init = ⟨[0, 1, 2], some 10, 1, []⟩
    ∧ (registerAll [(0, 10), (1, 11), (2, 12)] SchedState.init).fire
        = ⟨[], none, 1, [(10, [0, 1, 2])]⟩ :=
  ⟨(batch_coalesces_one_cycle 0 10 [(1, 11), (2, 12)] (by decide)).1,
   (batch_coalesces_one_cycle 0 10 [(1, 11), (2, 12)] (by decide)).2.1⟩

/-- `filterMap id` keeps the length of a list of defined options. -/
theorem filterMap_id_all_some {α : Type} (l : List (Option α)) (h : ∀ r ∈ l, r.isSome) :
    (l.filterMap id).length = l.length := by
  induction l with
  | nil => rfl
  | cons a l ih =>
    cases a with
    | none => exact absurd (h none (List.mem_cons_self none l)) (by simp)
    | some x =>
      simp only [List.filterMap_cons, id, List.length_cons]
      rw [ih (fun r hr => h r (List.mem_cons_of_mem _ hr))]

/-- When every call's spec is registered and its arguments validate,
the request-building phase of `send` throws nothing, settles nothing,
and produces one wire request per call. -/
theorem buildRequests_all_valid (store : List IRPCHost) (calls : List TCall)
    (h : ∀ c ∈ calls, ∃ spec, findHost store c.name = some spec
          ∧ (parseInput c.args spec.inputSchema).success = true) :
    (buildRequests store calls).threw = false
    ∧ (buildRequests store calls).calls = calls
    ∧ (buildRequests store calls).requests.length = calls.length
    ∧ ∀ r ∈ (buildRequests store calls).requests, r.isSome := by
  induction calls with
  | nil => exact ⟨rfl, rfl, rfl, by intro r hr; simp [buildRequests] at hr⟩
  | cons c cs ih =>
    obtain ⟨spec, hspec, hsucc⟩ := h c (List.mem_cons_self c cs)
    obtain ⟨ih1, ih2, ih3, ih4⟩ := ih (fun c' hc' => h c' (List.mem_cons_of_mem c hc'))
    have hstep : buildRequests store (c :: cs)
        = ⟨some ⟨c.id, c.name, (parseInput c.args spec.inputSchema).data⟩
             :: (buildRequests store cs).requests,
           c :: (buildRequests store cs).calls,
           (buildRequests store cs).threw⟩ := by
      simp [buildRequests, hspec, hsucc]
    rw [hstep]
    refine ⟨ih1, by rw [ih2], by simp [ih3], ?_⟩
    intro r hr
    rcases List.mem_cons.mp hr with hr | hr
    · subst hr; rfl
    · exact ih4 r hr

/-- C7: when the single batched HTTP request yields a non-success
transport-level outcome, `send` rejects every Call of that invocation
with the transport error (`statusText ?? 'Request failed.'`), resolves
none of them, and returns an empty result. -/
theorem send_not_ok_rejects_all (store : List IRPCHost) (calls : List TCall)
    (st : Option String)
    (hne : calls ≠ [])
    (hv : ∀ c ∈ calls, ∃ spec, findHost store c.name = some spec
          ∧ (parseInput c.args spec.inputSchema).success = true)
    (hinit : ∀ c ∈ calls, c.st = CallState.init) :
    httpSend store calls (.notOk st)
      = .returned
          ⟨calls.map (fun c => ⟨c.id, c.name, c.args, ⟨true, [], [st.getD "Request failed."]⟩⟩),
           (buildRequests store calls).requests.filterMap id, [], true⟩
    ∧ ((buildRequests store calls).requests.filterMap id).length = calls.length := by
  obtain ⟨h1, h2, h3, h4⟩ := buildRequests_all_valid store calls hv
  have hlen : ((buildRequests store calls).requests.filterMap id).length = calls.length := by
    rw [filterMap_id_all_some _ h4, h3]
  have hnemp : ((buildRequests store calls).requests.filterMap id).isEmpty = false := by
    have : (buildRequests store calls).requests.filterMap id ≠ [] := by
      intro hE
      rw [hE] at hlen
      exact hne (List.eq_nil_of_length_eq_zero hlen.symm)
    simp [this]
  have hmap : (buildRequests store calls).calls.map
        (fun c => (⟨c.id, c.name, c.args, c.st.reject (st.getD "Request failed.")⟩ : TCall))
      = calls.map (fun c => ⟨c.id, c.name, c.args, ⟨true, [], [st.getD "Request failed."]⟩⟩) := by
    rw [h2]
    refine List.map_congr_left ?_
    intro c hc
    rw [hinit c hc]
    rfl
  refine ⟨?_, hlen⟩
  simp only [httpSend, h1, hnemp, Bool.false_eq_true, if_false, hmap]

/-- Witness for C7: one valid call, the fetch fails with Bad Gateway. -/
theorem send_not_ok_rejects_all_witness :
    httpSend sendStore [callA] (.notOk (some "Bad Gateway"))
      = .returned
          ⟨[callA].map (fun c => ⟨c.id, c.name, c.args, ⟨true, [], ["Bad Gateway"]⟩⟩),
           (buildRequests sendStore [callA]).requests.filterMap id, [], true⟩ :=
  (send_not_ok_rejects_all sendStore [callA] (some "Bad Gateway")
    (by simp)
    (by
      intro c hc
      rw [List.mem_singleton] at hc
      subst hc
      exact ⟨⟨"multiply", some [numValidator, numValidator], none, some mulHandler⟩, rfl, rfl⟩)
    (by intro c hc; rw [List.mem_singleton] at hc; subst hc; rfl)).1

/-- C9 counterexample: a non-empty decoded batch whose single Request
targets a Host registered without a bound handler (the state `define`
leaves before `construct` runs): the Request passes lookup and
validation, then `factory.resolve` throws `'IRPC handler can not be
found.'` synchronously; the throw escapes `withContext` and the
`forEach`, rejecting the stream's `start` callback — the stream errors,
no Response is ever enqueued for the Request, it is never removed from
the pending set, and the stream never closes, refuting the claim as
stated. -/
theorem respond_no_handler_errors_stream :
    respondRun noHandlerStore noHandlerReqs (fun _ => .err none) []
      = ⟨[0], [], false, true, []⟩
    ∧ noHandlerReqs ≠ [] := by
  exact ⟨by decide, by decide⟩

/-- The synchronous `forEach` of `respond`, processing pairwise-distinct
request indices none of which takes the throw path, from a state whose
pending set is the already-deferred indices followed by the unprocessed
ones: it enqueues exactly the non-deferring requests' lines in arrival
order, defers the rest, never errors, and keeps the stream closed
exactly when nothing remains pending. -/
theorem runSync_fold (store : List IRPCHost) (reqs : List IRPCRequest)
    (outcomes : Nat → ResolveOutcome) (is ds : List Nat) (lines : List RespLine)
    (hnd : (ds ++ is).Nodup)
    (hth : ∀ i ∈ is, (clsAt store reqs i).isThrowing = false) :
    is.foldl (fun s i => syncStep store reqs i s)
        ⟨ds ++ is, lines, (ds ++ is).isEmpty, false, ds⟩
      = ⟨ds ++ deferIdxs store reqs is, lines ++ syncLines store reqs outcomes is,
         (ds ++ deferIdxs store reqs is).isEmpty, false, ds ++ deferIdxs store reqs is⟩ := by
  induction is generalizing ds lines with
  | nil => simp [deferIdxs, syncLines]
  | cons i is ih =>
    have hmid : (i :: (ds ++ is)).Nodup := List.nodup_middle.mp hnd
    have hi_not : i ∉ ds ++ is := (List.nodup_cons.mp hmid).1
    have hrest : (ds ++ is).Nodup := (List.nodup_cons.mp hmid).2
    have hi_ds : i ∉ ds := fun h => hi_not (List.mem_append.mpr (Or.inl h))
    have hthi : (clsAt store reqs i).isThrowing = false := hth i (List.mem_cons_self i is)
    have hth' : ∀ j ∈ is, (clsAt store reqs j).isThrowing = false :=
      fun j hj => hth j (List.mem_cons_of_mem i hj)
    have hne : (ds ++ i :: is).isEmpty = false := by simp
    rw [List.foldl_cons]
    rcases hc : clsAt store reqs i with l | spec | _
    · have hstep : syncStep store reqs i ⟨ds ++ i :: is, lines, (ds ++ i :: is).isEmpty, false, ds⟩
          = ⟨ds ++ is, lines ++ [l], (ds ++ is).isEmpty, false, ds⟩ := by
        have her : (ds ++ i :: is).erase i = ds ++ is := by
          rw [List.erase_append_right _ hi_ds, List.erase_cons_head]
        simp [syncStep, hc, her, hne]
      rw [hstep, ih ds (lines ++ [l]) hrest hth']
      have hd : deferIdxs store reqs (i :: is) = deferIdxs store reqs is := by
        simp [deferIdxs, List.filter_cons, hc, ReqPath.isDeferring]
      have hs : syncLines store reqs outcomes (i :: is)
          = l :: syncLines store reqs outcomes is := by
        simp [syncLines, List.filter_cons, hc, ReqPath.isDeferring, reqLine]
      rw [hd, hs]
      simp
    · have hstep : syncStep store reqs i ⟨ds ++ i :: is, lines, (ds ++ i :: is).isEmpty, false, ds⟩
          = ⟨(ds ++ [i]) ++ is, lines, ((ds ++ [i]) ++ is).isEmpty, false, ds ++ [i]⟩ := by
        simp [syncStep, hc, List.append_assoc]
      have hnd2 : ((ds ++ [i]) ++ is).Nodup := by
        rw [List.append_assoc]
        simpa using hnd
      rw [hstep, ih (ds ++ [i]) lines hnd2 hth']
      have hd : deferIdxs store reqs (i :: is) = i :: deferIdxs store reqs is := by
        simp [deferIdxs, List.filter_cons, hc, ReqPath.isDeferring]
      have hs : syncLines store reqs outcomes (i :: is) = syncLines store reqs outcomes is := by
        simp [syncLines, List.filter_cons, hc, ReqPath.isDeferring]
      rw [hd, hs]
      simp [List.append_assoc]
    · rw [hc] at hthi
      simp [ReqPath.isThrowing] at hthi

/-- The synchronous phase of a non-empty, throw-free batch: exactly the
deferring requests stay pending, the other requests' lines are enqueued
in arrival order, no error, and closed exactly when nothing deferred. -/
theorem runSync_spec (store : List IRPCHost) (reqs : List IRPCRequest)
    (outcomes : Nat → ResolveOutcome)
    (hne : reqs ≠ [])
    (hth : ∀ i ∈ List.range reqs.length, (clsAt store reqs i).isThrowing = false) :
    runSync store reqs
      = ⟨deferIdxs store reqs (List.range reqs.length),
         syncLines store reqs outcomes (List.range reqs.length),
         (deferIdxs store reqs (List.range reqs.length)).isEmpty, false,
         deferIdxs store reqs (List.range reqs.length)⟩ := by
  have hn : reqs.length ≠ 0 := fun h => hne (List.eq_nil_of_length_eq_zero h)
  have hrange : (List.range reqs.length).isEmpty = false := by
    have hE : List.range reqs.length ≠ [] := by
      intro hE
      have hl := List.length_range reqs.length
      rw [hE] at hl
      exact hn hl.symm
    simp [hE]
  have hshape : respondInit reqs.length
      = ⟨[] ++ List.range reqs.length, [], ([] ++ List.range reqs.length).isEmpty, false, []⟩ := by
    simp [respondInit, hrange]
  unfold runSync
  rw [hshape, runSync_fold store reqs outcomes (List.range reqs.length) [] []
      (by simpa using List.nodup_range reqs.length) hth]
  simp

/-- Only a deferring request has a continuation to fire, and firing it
removes exactly that request from the pending set. -/
theorem asyncStep_pending (store : List IRPCHost) (reqs : List IRPCRequest)
    (outcomes : Nat → ResolveOutcome) (i : Nat) (s : RespondState)
    (hdef : (clsAt store reqs i).isDeferring = true) :
    (asyncStep store reqs outcomes i s).pending = s.pending.erase i := by
  rcases hc : clsAt store reqs i with l | spec | _
  · rw [hc] at hdef
    simp [ReqPath.isDeferring] at hdef
  · by_cases hm : i ∈ s.pending
    · simp [asyncStep, hc, hm]
    · simp [asyncStep, hc, hm, List.erase_of_not_mem hm]
  · rw [hc] at hdef
    simp [ReqPath.isDeferring] at hdef

/-- Completing one continuation preserves closed-iff-pending-empty. -/
theorem asyncStep_closed_inv (store : List IRPCHost) (reqs : List IRPCRequest)
    (outcomes : Nat → ResolveOutcome) (i : Nat) (s : RespondState)
    (h : s.closed = s.pending.isEmpty) :
    (asyncStep store reqs outcomes i s).closed
      = (asyncStep store reqs outcomes i s).pending.isEmpty := by
  rcases hc : clsAt store reqs i with l | spec | _
  · simp [asyncStep, hc, h]
  · by_cases hm : i ∈ s.pending
    · have hne : s.pending.isEmpty = false := by
        have h0 : s.pending ≠ [] := by
          intro hE
          rw [hE] at hm
          simp at hm
        simp [h0]
      simp [asyncStep, hc, hm, h, hne]
    · simp [asyncStep, hc, hm, h]
  · simp [asyncStep, hc, h]

/-- Running pairwise-distinct completions of pending deferring requests
appends their settled lines in completion order, shrinks the pending
set by one per completion, leaves the errored flag alone, and preserves
the closed-iff-pending-empty invariant. -/
theorem runAsync_spec (store : List IRPCHost) (reqs : List IRPCRequest)
    (outcomes : Nat → ResolveOutcome) (order : List Nat) (s : RespondState)
    (hnd : order.Nodup)
    (hsub : ∀ i ∈ order, i ∈ s.pending)
    (hdef : ∀ i ∈ order, (clsAt store reqs i).isDeferring = true) :
    (runAsync store reqs outcomes order s).enqueued
      = s.enqueued ++ order.map (reqLine store reqs outcomes)
    ∧ (runAsync store reqs outcomes order s).pending.length + order.length = s.pending.length
    ∧ (runAsync store reqs outcomes order s).errored = s.errored
    ∧ (s.closed = s.pending.isEmpty →
        (runAsync store reqs outcomes order s).closed
          = (runAsync store reqs outcomes order s).pending.isEmpty) := by
  induction order generalizing s with
  | nil => exact ⟨by simp [runAsync], by simp [runAsync], by simp [runAsync], fun h => h⟩
  | cons i order ih =>
    have hm : i ∈ s.pending := hsub i (List.mem_cons_self i order)
    have hdi : (clsAt store reqs i).isDeferring = true := hdef i (List.mem_cons_self i order)
    obtain ⟨spec, hc⟩ : ∃ spec, clsAt store reqs i = .deferred spec := by
      rcases hcc : clsAt store reqs i with l | spec | _
      · rw [hcc] at hdi
        simp [ReqPath.isDeferring] at hdi
      · exact ⟨spec, rfl⟩
      · rw [hcc] at hdi
        simp [ReqPath.isDeferring] at hdi
    have hrun : runAsync store reqs outcomes (i :: order) s
        = runAsync store reqs outcomes order (asyncStep store reqs outcomes i s) := rfl
    have hnd' : order.Nodup := (List.nodup_cons.mp hnd).2
    have hi : i ∉ order := (List.nodup_cons.mp hnd).1
    have hs' : asyncStep store reqs outcomes i s
        = ⟨s.pending.erase i,
           s.enqueued ++ [settledLine spec (outcomes i) (reqs.getD i ⟨"", "", []⟩)],
           s.closed || (s.pending.erase i).isEmpty, s.errored, s.deferred.erase i⟩ := by
      simp [asyncStep, hc, hm]
    have hsub' : ∀ j ∈ order, j ∈ (asyncStep store reqs outcomes i s).pending := by
      intro j hj
      have hji : j ≠ i := by
        intro hji
        subst hji
        exact hi hj
      rw [asyncStep_pending store reqs outcomes i s hdi]
      exact (List.mem_erase_of_ne hji).mpr (hsub j (List.mem_cons_of_mem i hj))
    have hdef' : ∀ j ∈ order, (clsAt store reqs j).isDeferring = true :=
      fun j hj => hdef j (List.mem_cons_of_mem i hj)
    obtain ⟨e1, e2, e3, e4⟩ := ih (asyncStep store reqs outcomes i s) hnd' hsub' hdef'
    have hlen : (s.pending.erase i).length + 1 = s.pending.length := by
      rw [List.length_erase_of_mem hm]
      have hpos : 0 < s.pending.length :=
        List.length_pos.mpr (by intro hE; rw [hE] at hm; simp at hm)
      omega
    have hline : reqLine store reqs outcomes i
        = settledLine spec (outcomes i) (reqs.getD i ⟨"", "", []⟩) := by
      simp [reqLine, hc]
    refine ⟨?_, ?_, ?_, ?_⟩
    · rw [hrun, e1, hs']
      simp [hline]
    · rw [hrun]
      rw [asyncStep_pending store reqs outcomes i s hdi] at e2
      simp only [List.length_cons]
      omega
    · rw [hrun, e3, hs']
    · intro h
      rw [hrun]
      exact e4 (asyncStep_closed_inv store reqs outcomes i s h)

/-- One list splits by a predicate into the matching and the
non-matching elements. -/
theorem length_filter_split {α : Type} (l : List α) (p : α → Bool) :
    (l.filter p).length + (l.filter (fun a => !(p a))).length = l.length := by
  induction l with
  | nil => rfl
  | cons a l ih => by_cases h : p a <;> simp [List.filter_cons, h] <;> omega

/-- C9 (amended): in `respond`, for every non-empty decoded batch of
Requests in which no Request reaches `factory.resolve`'s synchronous
NoHandler throw (every Request takes either a synchronous error-line
branch or targets a Host with a bound handler), exactly one Response is
enqueued per Request — the synchronous error lines in arrival order
followed by the deferred settlements in completion order — finalizing
removes the completed Request from the pending set, the stream never
errors, and it is closed exactly when the pending set empties: only
after every Request's Response has been enqueued, regardless of the
order in which the deferred Requests complete. -/
theorem respond_stream_closes_after_all (store : List IRPCHost) (reqs : List IRPCRequest)
    (outcomes : Nat → ResolveOutcome) (order : List Nat)
    (hne : reqs ≠ [])
    (hth : ∀ req ∈ reqs, (classifyReq store req).isThrowing = false)
    (horder : order.Perm (runSync store reqs).deferred) :
    (runSync store reqs).errored = false
    ∧ (runSync store reqs).pending = (runSync store reqs).deferred
    ∧ (respondRun store reqs outcomes order).pending = []
    ∧ (respondRun store reqs outcomes order).closed = true
    ∧ (respondRun store reqs outcomes order).errored = false
    ∧ (respondRun store reqs outcomes order).enqueued
        = (runSync store reqs).enqueued ++ order.map (reqLine store reqs outcomes)
    ∧ (respondRun store reqs outcomes order).enqueued.length = reqs.length
    ∧ (∀ (i : Nat) (s : RespondState), (clsAt store reqs i).isDeferring = true →
        (asyncStep store reqs outcomes i s).pending = s.pending.erase i)
    ∧ ∀ k : Nat, k < order.length →
        (runAsync store reqs outcomes (order.take k) (runSync store reqs)).closed = false := by
  have hthIdx : ∀ i ∈ List.range reqs.length, (clsAt store reqs i).isThrowing = false := by
    intro i hi
    have hi' : i < reqs.length := List.mem_range.mp hi
    have hgd : reqs.getD i ⟨"", "", []⟩ = reqs[i] := List.getD_eq_getElem reqs _ hi'
    simp only [clsAt, hgd]
    exact hth _ (List.getElem_mem hi')
  have hsync := runSync_spec store reqs outcomes hne hthIdx
  have hperm : order.Perm (deferIdxs store reqs (List.range reqs.length)) := by
    rw [hsync] at horder
    exact horder
  have hnodD : (deferIdxs store reqs (List.range reqs.length)).Nodup :=
    (List.nodup_range reqs.length).filter _
  have hndo : order.Nodup := hperm.nodup_iff.mpr hnodD
  have hsubo : ∀ i ∈ order, i ∈ (runSync store reqs).pending := by
    intro i hi
    rw [hsync]
    exact hperm.subset hi
  have hdefo : ∀ i ∈ order, (clsAt store reqs i).isDeferring = true := by
    intro i hi
    exact (List.mem_filter.mp (hperm.subset hi)).2
  have hinv : (runSync store reqs).closed = (runSync store reqs).pending.isEmpty := by
    rw [hsync]
  have hlenD : order.length = (deferIdxs store reqs (List.range reqs.length)).length :=
    hperm.length_eq
  have hplen0 : (runSync store reqs).pending.length = order.length := by
    rw [hsync]
    exact hlenD.symm
  obtain ⟨e1, e2, e3, e4⟩ :=
    runAsync_spec store reqs outcomes order (runSync store reqs) hndo hsubo hdefo
  rw [hplen0] at e2
  have hfinp : (runAsync store reqs outcomes order (runSync store reqs)).pending = [] := by
    apply List.eq_nil_of_length_eq_zero
    omega
  have hfinc : (runAsync store reqs outcomes order (runSync store reqs)).closed = true := by
    rw [e4 hinv, hfinp]
    rfl
  have hLlen : (syncLines store reqs outcomes (List.range reqs.length)).length
      = ((List.range reqs.length).filter
          (fun i => !(clsAt store reqs i).isDeferring)).length := by
    simp [syncLines]
  have hsplit : (deferIdxs store reqs (List.range reqs.length)).length
      + ((List.range reqs.length).filter
          (fun i => !(clsAt store reqs i).isDeferring)).length
      = reqs.length := by
    have h := length_filter_split (List.range reqs.length)
      (fun i => (clsAt store reqs i).isDeferring)
    simpa [deferIdxs] using h
  have hflen : (runAsync store reqs outcomes order (runSync store reqs)).enqueued.length
      = reqs.length := by
    rw [e1]
    simp only [hsync, List.length_append, List.length_map]
    rw [← hLlen] at hsplit
    omega
  have herrf : (runAsync store reqs outcomes order (runSync store reqs)).errored = false := by
    rw [e3, hsync]
  refine ⟨by rw [hsync], by rw [hsync], hfinp, hfinc, herrf, e1, hflen,
    fun i s hd => asyncStep_pending store reqs outcomes i s hd, ?_⟩
  intro k hk
  have hndk : (order.take k).Nodup := hndo.sublist (List.take_sublist k order)
  have hsubk : ∀ i ∈ order.take k, i ∈ (runSync store reqs).pending :=
    fun i hi => hsubo i (List.mem_of_mem_take hi)
  have hdefk : ∀ i ∈ order.take k, (clsAt store reqs i).isDeferring = true :=
    fun i hi => hdefo i (List.mem_of_mem_take hi)
  obtain ⟨f1, f2, f3, f4⟩ :=
    runAsync_spec store reqs outcomes (order.take k) (runSync store reqs) hndk hsubk hdefk
  rw [hplen0] at f2
  have hkl : (order.take k).length = k := by
    rw [List.length_take]
    omega
  have hplen : 0 <
      (runAsync store reqs outcomes (order.take k) (runSync store reqs)).pending.length := by
    omega
  have hpne : (runAsync store reqs outcomes (order.take k) (runSync store reqs)).pending
      ≠ [] := by
    intro hE
    rw [hE] at hplen
    simp at hplen
  rw [f4 hinv]
  simp [hpne]

/-- Witness for C9: the three concrete requests (two deferring, one
synchronous NotFound line), deferred completions finishing out of
order. -/
theorem respond_stream_closes_after_all_witness :
    (respondRun demoStore demoReqs demoOutcomes [2, 0]).closed = true
    ∧ (respondRun demoStore demoReqs demoOutcomes [2, 0]).enqueued
        = (runSync demoStore demoReqs).enqueued
          ++ [2, 0].map (reqLine demoStore demoReqs demoOutcomes) :=
  ⟨(respond_stream_closes_after_all demoStore demoReqs demoOutcomes [2, 0]
      (by decide)
      (by intro req hq; simp [demoReqs] at hq; rcases hq with rfl | rfl | rfl <;> rfl)
      (by decide)).2.2.2.1,
   (respond_stream_closes_after_all demoStore demoReqs demoOutcomes [2, 0]
      (by decide)
      (by intro req hq; simp [demoReqs] at hq; rcases hq with rfl | rfl | rfl <;> rfl)
      (by decide)).2.2.2.2.2.1⟩


/-- C6 (code bug): the validation half of the claim holds — the invalid
call is rejected synchronously with its validation error and excluded
from the outgoing batch while the valid call is dispatched, and with no
transportable call `send` returns empty without fetching — but a
dispatched call can never resolve: the line loop passes the string
`result.name` to `factory.info`, which reads the string's absent `name`
property, so the spec lookup misses and the swallowed `TypeError` leaves
the call unsettled even on a well-formed success line. -/
theorem send_success_line_never_resolves :
    httpSend sendStore [callA, callB] (.ok [some lineA])
      = .returned
          ⟨[⟨"a1", "multiply", [.num 3, .num 4], ⟨false, [], []⟩⟩,
            ⟨"b1", "multiply", [.str "x", .num 4], ⟨true, [], ["Expected number"]⟩⟩],
           [⟨"a1", "multiply", [.num 3, .num 4]⟩], [lineA], true⟩
    ∧ httpSend sendStore [callB] (.ok [some lineA])
      = .returned
          ⟨[⟨"b1", "multiply", [.str "x", .num 4], ⟨true, [], ["Expected number"]⟩⟩],
           [], [], false⟩
    ∧ (factoryInfo sendStore (.str "multiply")).isSome = false
    ∧ (findHost sendStore "multiply").isSome = true := by
  exact ⟨by decide, by decide, rfl, rfl⟩

end IRPC
